import Mathlib

/-!
# Verification of the bicycle-rental coordinator

A shallow embedding, in Lean 4, of the business logic of the rental-fleet
backend: the pricing engine (`PricingService`), the rental coordinator
(`RentalService`), the maintenance coordinator (`MaintenanceLogService`) and
the event capacity coordinator (`EventService` together with
`EventRepository` / `EventParticipantRepository`).

Modelling conventions:
* Timestamps are epoch milliseconds (`ℤ`); every operation that reads the
  wall clock (`new Date()`) takes the current instant `now` as a parameter.
* JavaScript numbers are embedded as exact rationals (`ℚ`).
* MongoDB collections become association lists `List (ℕ × α)` keyed by
  document id; `findById` is `lookupId`, `findByIdAndUpdate` is `mapAt`
  (a no-op when the id is absent, as `findByIdAndUpdate` returns `null`),
  and `findByIdAndDelete` is `eraseId`.  Fresh ids generated by the store
  are passed in as parameters.
* Each service method that runs inside a MongoDB transaction
  (`startTransaction` … `commitTransaction`/`abortTransaction`) is embedded
  as a function returning `Except`: an `error` result corresponds to an
  aborted transaction, which leaves the persistent state unchanged, so the
  function returns a new state only on `ok`.
* A thrown `Error('...')` message is embedded as a typed error constructor
  named after the message.
-/

namespace BicycleRental

/-! ## Pricing engine (`src/services/PricingService.ts`) -/

/-- Embeds `PricingService.calculateDiscountPercentage`.  The rider's
socioeconomic stratum is optional; JavaScript's `!socioeconomicStratum`
is also true for `0`, which the embedding reflects. -/
def calculateDiscountPercentage (socioeconomicStratum : Option ℤ) : ℚ :=
  match socioeconomicStratum with
  | none => 0
  | some s =>
      if s = 0 then 0
      else if 1 ≤ s ∧ s ≤ 2 then 10
      else if 3 ≤ s ∧ s ≤ 4 then 5
      else 0

/-- Result record of `PricingService.calculateRentalPrice`. -/
structure PricingCalculation where
  hours : ℤ
  baseRate : ℚ
  subtotal : ℚ
  discountPercentage : ℚ
  discountAmount : ℚ
  totalAmount : ℚ
deriving DecidableEq

/-- Embeds `PricingService.calculateRentalPrice`.  Times are epoch milliseconds;
the elapsed time is clamped below at `0` and rounded up to whole hours. -/
def calculateRentalPrice (startTime endTime : ℤ) (pricePerHour : ℚ)
    (socioeconomicStratum : Option ℤ) : PricingCalculation :=
  let milliseconds : ℚ := ((endTime - startTime : ℤ) : ℚ)
  let hours : ℚ := max (milliseconds / (1000 * 60 * 60)) 0
  let billingHours : ℤ := ⌈hours⌉
  let subtotal : ℚ := (billingHours : ℚ) * pricePerHour
  let discountPercentage : ℚ := calculateDiscountPercentage socioeconomicStratum
  let discountAmount : ℚ := subtotal * discountPercentage / 100
  let totalAmount : ℚ := subtotal - discountAmount
  { hours := billingHours, baseRate := pricePerHour, subtotal := subtotal,
    discountPercentage := discountPercentage, discountAmount := discountAmount,
    totalAmount := totalAmount }

/-- The behaviour `calculateRentalPrice` is specified to have on a window
with positive elapsed time: billed hours are the elapsed hours rounded up
(at least 1), and the money columns follow from them. -/
def RentalPriceSpec (startTime endTime : ℤ) (pricePerHour : ℚ)
    (socioeconomicStratum : Option ℤ) : Prop :=
  (calculateRentalPrice startTime endTime pricePerHour socioeconomicStratum).hours =
      ⌈((endTime - startTime : ℤ) : ℚ) / (1000 * 60 * 60)⌉ ∧
  1 ≤ (calculateRentalPrice startTime endTime pricePerHour socioeconomicStratum).hours ∧
  (calculateRentalPrice startTime endTime pricePerHour socioeconomicStratum).subtotal =
      ((calculateRentalPrice startTime endTime pricePerHour socioeconomicStratum).hours : ℚ) *
        pricePerHour ∧
  (calculateRentalPrice startTime endTime pricePerHour socioeconomicStratum).discountPercentage =
      calculateDiscountPercentage socioeconomicStratum ∧
  (calculateRentalPrice startTime endTime pricePerHour socioeconomicStratum).discountAmount =
      (calculateRentalPrice startTime endTime pricePerHour socioeconomicStratum).subtotal *
        (calculateRentalPrice startTime endTime pricePerHour
          socioeconomicStratum).discountPercentage / 100 ∧
  (calculateRentalPrice startTime endTime pricePerHour socioeconomicStratum).totalAmount =
      (calculateRentalPrice startTime endTime pricePerHour socioeconomicStratum).subtotal -
        (calculateRentalPrice startTime endTime pricePerHour socioeconomicStratum).discountAmount

/-- C4: for every rental window with positive elapsed duration and
non-negative hourly rate, `calculateRentalPrice` bills the elapsed hours
rounded up to the next whole hour (minimum 1), with
subtotal = billedHours × hourlyRate,
discountAmount = subtotal × discountPercentage / 100 and
totalAmount = subtotal − discountAmount; moreover 90 minutes at rate
5000/hr with no stratum gives hours=2, subtotal=10000, discountAmount=0,
totalAmount=10000, and exactly 1 hour at 8000/hr for stratum 1 gives
hours=1, subtotal=8000, discountAmount=800, totalAmount=7200. -/
theorem calculateRentalPrice_spec (startTime endTime : ℤ) (pricePerHour : ℚ)
    (socioeconomicStratum : Option ℤ)
    (helapsed : startTime < endTime) (_hrate : 0 ≤ pricePerHour) :
    RentalPriceSpec startTime endTime pricePerHour socioeconomicStratum ∧
    calculateRentalPrice 0 5400000 5000 none =
      { hours := 2, baseRate := 5000, subtotal := 10000, discountPercentage := 0,
        discountAmount := 0, totalAmount := 10000 } ∧
    calculateRentalPrice 0 3600000 8000 (some 1) =
      { hours := 1, baseRate := 8000, subtotal := 8000, discountPercentage := 10,
        discountAmount := 800, totalAmount := 7200 } := by
  refine ⟨?_, ?_, ?_⟩
  · have hms : (0 : ℚ) < ((endTime - startTime : ℤ) : ℚ) := by
      exact_mod_cast sub_pos.mpr helapsed
    have hdiv : (0 : ℚ) < ((endTime - startTime : ℤ) : ℚ) / (1000 * 60 * 60) :=
      div_pos hms (by norm_num)
    refine ⟨?_, ?_, rfl, rfl, rfl, rfl⟩
    · simp only [calculateRentalPrice]
      rw [max_eq_left hdiv.le]
    · simp only [calculateRentalPrice]
      rw [max_eq_left hdiv.le]
      exact Int.ceil_pos.mpr hdiv
  · simp only [calculateRentalPrice, calculateDiscountPercentage]
    rw [max_eq_left (by norm_num)]
    rw [show (⌈(((5400000 - 0 : ℤ) : ℚ)) / (1000 * 60 * 60)⌉ : ℤ) = 2 by
      norm_num [Int.ceil_eq_iff]]
    norm_num
  · simp only [calculateRentalPrice, calculateDiscountPercentage]
    rw [max_eq_left (by norm_num)]
    rw [show (⌈(((3600000 - 0 : ℤ) : ℚ)) / (1000 * 60 * 60)⌉ : ℤ) = 1 by
      norm_num [Int.ceil_eq_iff]]
    norm_num

/-- Witness for C4 at a concrete input (90 minutes, 5000/hr, no stratum). -/
theorem calculateRentalPrice_spec_witness :
    (0 : ℤ) < 5400000 ∧ (0 : ℚ) ≤ 5000 ∧
    (RentalPriceSpec 0 5400000 5000 none ∧
      calculateRentalPrice 0 5400000 5000 none =
        { hours := 2, baseRate := 5000, subtotal := 10000, discountPercentage := 0,
          discountAmount := 0, totalAmount := 10000 } ∧
      calculateRentalPrice 0 3600000 8000 (some 1) =
        { hours := 1, baseRate := 8000, subtotal := 8000, discountPercentage := 10,
          discountAmount := 800, totalAmount := 7200 }) :=
  ⟨by norm_num, by norm_num,
    calculateRentalPrice_spec 0 5400000 5000 none (by norm_num) (by norm_num)⟩

/-- C5: the discount is 10% for strata 1 and 2, 5% for strata 3 and 4, and
0% for strata 5 and 6 or when no stratum is given. -/
theorem calculateDiscountPercentage_spec :
    calculateDiscountPercentage (some 1) = 10 ∧ calculateDiscountPercentage (some 2) = 10 ∧
    calculateDiscountPercentage (some 3) = 5 ∧ calculateDiscountPercentage (some 4) = 5 ∧
    calculateDiscountPercentage (some 5) = 0 ∧ calculateDiscountPercentage (some 6) = 0 ∧
    calculateDiscountPercentage none = 0 := by
  refine ⟨?_, ?_, ?_, ?_, ?_, ?_, rfl⟩ <;> rfl

/-- C10: `calculateRentalPrice` is total; when the end time is at or before
the start time it clamps the elapsed duration to 0 and returns all-zero
amounts, with the discount percentage still computed from the stratum. -/
theorem calculateRentalPrice_nonpositive_elapsed (startTime endTime : ℤ)
    (pricePerHour : ℚ) (socioeconomicStratum : Option ℤ) (h : endTime ≤ startTime) :
    calculateRentalPrice startTime endTime pricePerHour socioeconomicStratum =
      { hours := 0, baseRate := pricePerHour, subtotal := 0,
        discountPercentage := calculateDiscountPercentage socioeconomicStratum,
        discountAmount := 0, totalAmount := 0 } := by
  have hms : ((endTime - startTime : ℤ) : ℚ) ≤ 0 := by
    exact_mod_cast sub_nonpos.mpr h
  have hdiv : ((endTime - startTime : ℤ) : ℚ) / (1000 * 60 * 60) ≤ 0 :=
    div_nonpos_of_nonpos_of_nonneg hms (by norm_num)
  simp only [calculateRentalPrice]
  rw [max_eq_right hdiv]
  norm_num

/-- Witness for C10 at a concrete input (end 2 hours before start). -/
theorem calculateRentalPrice_nonpositive_elapsed_witness :
    (3600000 : ℤ) ≤ 10800000 ∧
    calculateRentalPrice 10800000 3600000 7000 (some 2) =
      { hours := 0, baseRate := 7000, subtotal := 0,
        discountPercentage := calculateDiscountPercentage (some 2),
        discountAmount := 0, totalAmount := 0 } :=
  ⟨by norm_num,
    calculateRentalPrice_nonpositive_elapsed 10800000 3600000 7000 (some 2) (by norm_num)⟩

/-! ## Store primitives (association lists keyed by document id) -/

/-- Embeds `findById`: first entry with the given key. -/
def lookupId {α : Type} : List (ℕ × α) → ℕ → Option α
  | [], _ => none
  | (k2, v) :: rest, k => if k2 = k then some v else lookupId rest k

/-- Embeds `findByIdAndUpdate`: apply `f` to the value stored at `k`; a no-op when
the id is absent (the query returns `null` and the services ignore it). -/
def mapAt {α : Type} (m : List (ℕ × α)) (k : ℕ) (f : α → α) : List (ℕ × α) :=
  m.map fun kv => if kv.1 = k then (kv.1, f kv.2) else kv

/-- Embeds `findByIdAndDelete`: remove the entry with the given key. -/
def eraseId {α : Type} : List (ℕ × α) → ℕ → List (ℕ × α)
  | [], _ => []
  | kv :: rest, k => if kv.1 = k then rest else kv :: eraseId rest k

/-! ## Data model (`src/models`) -/

inductive BicycleStatus
  | available
  | rented
  | maintenance
  | retired
deriving DecidableEq

inductive RentalStatus
  | active
  | completed
  | cancelled
deriving DecidableEq

/-- GeoJSON point (`currentLocation`, `startLocation`, …). -/
structure GeoPoint where
  lng : ℚ
  lat : ℚ
deriving DecidableEq

/-- The slice of `IUser` the coordinators read. -/
structure User where
  socioeconomicStratum : Option ℤ
deriving DecidableEq

structure Bicycle where
  rentalPricePerHour : ℚ
  currentLocation : GeoPoint
  status : BicycleStatus
deriving DecidableEq

structure Rental where
  userId : ℕ
  bicycleId : ℕ
  startTime : ℤ
  endTime : Option ℤ
  status : RentalStatus
  baseRate : ℚ
  discountPercentage : ℚ
  discountAmount : Option ℚ
  totalAmount : Option ℚ
  startLocation : GeoPoint
  endLocation : Option GeoPoint
deriving DecidableEq

structure Payment where
  rentalId : ℕ
  amount : ℚ
deriving DecidableEq

structure MaintenanceLog where
  bicycleId : ℕ
  maintenanceDate : ℤ
  cost : ℚ
deriving DecidableEq

/-- The persistent collections the rental and maintenance coordinators
touch. -/
structure FleetState where
  users : List (ℕ × User)
  bicycles : List (ℕ × Bicycle)
  rentals : List (ℕ × Rental)
  payments : List Payment
  maintenanceLogs : List (ℕ × MaintenanceLog)
deriving DecidableEq

/-! ## Rental coordinator (`src/services/RentalService.ts`) -/

/-- Typed counterparts of the `Error('...')` messages thrown by
`RentalService`. -/
inductive RentalError
  | userNotFound
  | userAlreadyHasActiveRental
  | bicycleNotFound
  | bicycleNotAvailable
  | rentalNotFound
  | rentalNotActive
  | rentalValidationFailed
deriving DecidableEq

structure RentBicycleDto where
  bicycleId : ℕ
  startLocation : Option GeoPoint
deriving DecidableEq

/-- Embeds `RentalRepository.findActiveByUser`: first rental of the user with
status `active`. -/
def findActiveByUser (rentals : List (ℕ × Rental)) (userId : ℕ) :
    Option (ℕ × Rental) :=
  rentals.find? fun kv => kv.2.userId == userId && decide (kv.2.status = .active)

/-- Embeds `BicycleRepository.updateStatus`. -/
def updateBicycleStatus (bs : List (ℕ × Bicycle)) (k : ℕ) (st : BicycleStatus) :
    List (ℕ × Bicycle) :=
  mapAt bs k fun b => { b with status := st }

/-- The mongoose validators of the Rental schema that apply to the document
`RentalService.rentBicycle` inserts (they run because
`RentalRepository.create` calls `save()`): `baseRate` has `min: 0` and
`discountPercentage` has `min: 0, max: 1` ("Discount percentage must be
between 0 and 1").  The remaining creation fields always pass (ids and
`startTime` are set, `status` is a legal enum value, `discountAmount`
defaults to 0). -/
def rentalSaveValidates (rental : Rental) : Bool :=
  decide (0 ≤ rental.baseRate) &&
    decide (0 ≤ rental.discountPercentage) && decide (rental.discountPercentage ≤ 1)

/-- Embeds `RentalService.rentBicycle`: the transaction body; an aborted
transaction is the `error` result.  The insert runs the Rental schema's
save-validators; a `ValidationError` aborts the transaction like any other
thrown error. -/
def rentBicycle (s : FleetState) (now : ℤ) (userId : ℕ) (dto : RentBicycleDto)
    (newRentalId : ℕ) : Except RentalError (FleetState × Rental) :=
  match lookupId s.users userId with
  | none => .error .userNotFound
  | some user =>
    match findActiveByUser s.rentals userId with
    | some _ => .error .userAlreadyHasActiveRental
    | none =>
      match lookupId s.bicycles dto.bicycleId with
      | none => .error .bicycleNotFound
      | some bicycle =>
        if bicycle.status ≠ BicycleStatus.available then .error .bicycleNotAvailable
        else
          let rental : Rental :=
            { userId := userId, bicycleId := dto.bicycleId, startTime := now,
              endTime := none, status := .active,
              baseRate := bicycle.rentalPricePerHour,
              discountPercentage := calculateDiscountPercentage user.socioeconomicStratum,
              discountAmount := none, totalAmount := none,
              startLocation := dto.startLocation.getD bicycle.currentLocation,
              endLocation := none }
          if ¬ rentalSaveValidates rental then .error .rentalValidationFailed
          else
            .ok ({ s with
                    rentals := (newRentalId, rental) :: s.rentals,
                    bicycles := updateBicycleStatus s.bicycles dto.bicycleId .rented },
                 rental)

theorem lookupId_cons {α : Type} (k1 : ℕ) (v : α) (rest : List (ℕ × α)) (k : ℕ) :
    lookupId ((k1, v) :: rest) k = if k1 = k then some v else lookupId rest k := rfl

theorem mapAt_cons {α : Type} (k1 : ℕ) (v : α) (rest : List (ℕ × α)) (k : ℕ)
    (f : α → α) :
    mapAt ((k1, v) :: rest) k f =
      (if k1 = k then (k1, f v) else (k1, v)) :: mapAt rest k f := by
  simp only [mapAt, List.map_cons]

theorem lookupId_mapAt_self {α : Type} (m : List (ℕ × α)) (k : ℕ) (f : α → α) :
    lookupId (mapAt m k f) k = (lookupId m k).map f := by
  induction m with
  | nil => rfl
  | cons kv rest ih =>
    obtain ⟨k1, v⟩ := kv
    rw [mapAt_cons]
    by_cases h : k1 = k
    · rw [if_pos h, lookupId_cons, lookupId_cons, if_pos h, if_pos h]; rfl
    · rw [if_neg h, lookupId_cons, lookupId_cons, if_neg h, if_neg h, ih]

theorem lookupId_mapAt_ne {α : Type} (m : List (ℕ × α)) (k k2 : ℕ) (f : α → α)
    (h : k2 ≠ k) : lookupId (mapAt m k f) k2 = lookupId m k2 := by
  induction m with
  | nil => rfl
  | cons kv rest ih =>
    obtain ⟨k1, v⟩ := kv
    rw [mapAt_cons]
    by_cases h1 : k1 = k
    · have hne : k1 ≠ k2 := by rw [h1]; exact fun hh => h hh.symm
      rw [if_pos h1, lookupId_cons, lookupId_cons, if_neg hne, if_neg hne, ih]
    · rw [if_neg h1, lookupId_cons, lookupId_cons]
      by_cases h2 : k1 = k2
      · rw [if_pos h2, if_pos h2]
      · rw [if_neg h2, if_neg h2, ih]

theorem lookupId_mapAt_isSome {α : Type} (m : List (ℕ × α)) (k k2 : ℕ) (f : α → α) :
    (lookupId (mapAt m k f) k2).isSome = (lookupId m k2).isSome := by
  by_cases h : k2 = k
  · subst h; rw [lookupId_mapAt_self]; cases lookupId m k2 <;> rfl
  · rw [lookupId_mapAt_ne _ _ _ _ h]

theorem lookupId_eq_none_iff {α : Type} (m : List (ℕ × α)) (k : ℕ) :
    lookupId m k = none ↔ k ∉ m.map Prod.fst := by
  induction m with
  | nil => simp [lookupId]
  | cons kv rest ih =>
    obtain ⟨k1, v⟩ := kv
    rw [lookupId_cons]
    by_cases h : k1 = k
    · subst h; simp
    · simp [h, ih, Ne.symm h]

theorem eraseId_sublist {α : Type} (m : List (ℕ × α)) (k : ℕ) :
    (eraseId m k).Sublist m := by
  induction m with
  | nil => simp [eraseId]
  | cons kv rest ih =>
    by_cases h : kv.1 = k
    · simp only [eraseId, if_pos h]
      exact List.sublist_cons_self kv rest
    · simpa [eraseId, h] using ih.cons₂ kv

/-! ## Claim theorems for the rental coordinator -/

/-- C1 (code bug): the claimed preconditions all hold at this input —
rider 1 is stored (stratum 2), has no active rental, and bicycle 2 exists
with status `available` — yet `rentBicycle` does not succeed.
`RentalService.rentBicycle` stores the whole-number percentage returned by
`calculateDiscountPercentage` (10 for stratum 2), while the Rental
schema's save-validator caps `discountPercentage` at 1 ("Discount
percentage must be between 0 and 1"), so the insert performed by
`RentalRepository.create` throws a `ValidationError` and the transaction
aborts with no state change, instead of creating the rental and marking
the bicycle `rented` as the claim requires.  The same happens for every
rider of stratum 1-4; only riders with stratum 5-6 or no stratum (discount
0) can rent at all. -/
theorem rentBicycle_discount_validation_aborts :
    lookupId (FleetState.mk [(1, ⟨some 2⟩)]
        [(2, ⟨5000, ⟨0, 0⟩, .available⟩)] [] [] []).users 1 = some ⟨some 2⟩ ∧
    findActiveByUser (FleetState.mk [(1, ⟨some 2⟩)]
        [(2, ⟨5000, ⟨0, 0⟩, .available⟩)] [] [] []).rentals 1 = none ∧
    lookupId (FleetState.mk [(1, ⟨some 2⟩)]
        [(2, ⟨5000, ⟨0, 0⟩, .available⟩)] [] [] []).bicycles 2 =
      some ⟨5000, ⟨0, 0⟩, .available⟩ ∧
    calculateDiscountPercentage (some 2) = 10 ∧
    rentBicycle (FleetState.mk [(1, ⟨some 2⟩)]
        [(2, ⟨5000, ⟨0, 0⟩, .available⟩)] [] [] []) 0 1 ⟨2, none⟩ 9 =
      .error .rentalValidationFailed :=
  ⟨rfl, rfl, rfl, rfl, rfl⟩

inductive EventStatus
  | draft
  | published
  | cancelled
  | completed
deriving DecidableEq

inductive AttendanceStatus
  | registered
  | attended
  | absent
  | cancelled
deriving DecidableEq

/-- The slice of `IEvent` the coordinator reads and writes.
`currentParticipants` is `ℤ` because `EventRepository.decrementParticipants`
issues a bare `$inc: -1` with no validators, so nothing in the update path
keeps the stored counter non-negative. -/
structure Event where
  eventDate : ℤ
  maxParticipants : Option ℕ
  currentParticipants : ℤ
  status : EventStatus
  regionalId : ℕ
deriving DecidableEq

structure EventParticipant where
  eventId : ℕ
  userId : ℕ
  registrationDate : ℤ
  attendanceStatus : AttendanceStatus
deriving DecidableEq

/-- The persistent collections the event coordinator touches; regionals and
users only matter through existence of their ids. -/
structure EventState where
  regionals : List ℕ
  users : List ℕ
  events : List (ℕ × Event)
  participants : List (ℕ × EventParticipant)
deriving DecidableEq

/-- Typed counterparts of the `Error('...')` messages of `EventService`. -/
inductive EventError
  | userNotFound
  | regionalNotFound
  | eventNotFound
  | eventDateMustBeFuture
  | cannotRegisterToPastEvents
  | eventIsFull
  | alreadyRegistered
  | notRegistered
  | cannotCancelForPastEvents
  | maxLessThanCurrent
deriving DecidableEq

structure CreateEventDto where
  eventDate : ℤ
  maxParticipants : Option ℕ
  regionalId : ℕ
  status : Option EventStatus
deriving DecidableEq

structure UpdateEventDto where
  eventDate : Option ℤ
  maxParticipants : Option ℕ
  regionalId : Option ℕ
  status : Option EventStatus
deriving DecidableEq

/-- Embeds `EventService.create`.  `currentParticipants` starts at 0;
`maxParticipants` is copied only when truthy (`0` is falsy in JS); the
status defaults to `published` (mongoose default). -/
def createEvent (s : EventState) (now : ℤ) (dto : CreateEventDto)
    (newEventId : ℕ) : Except EventError (EventState × Event) :=
  if ¬ s.regionals.contains dto.regionalId then .error .regionalNotFound
  else if dto.eventDate ≤ now then .error .eventDateMustBeFuture
  else
    let maxP : Option ℕ :=
      match dto.maxParticipants with
      | some v => if v = 0 then none else some v
      | none => none
    let ev : Event :=
      { eventDate := dto.eventDate, maxParticipants := maxP,
        currentParticipants := 0, status := dto.status.getD .published,
        regionalId := dto.regionalId }
    .ok ({ s with events := (newEventId, ev) :: s.events }, ev)

/-- The capacity guard of `EventService.update`:
`dto.maxParticipants && dto.maxParticipants < event.currentParticipants`. -/
def maxBelowCurrent (dto : UpdateEventDto) (ev : Event) : Bool :=
  match dto.maxParticipants with
  | some v => v != 0 && decide ((v : ℤ) < ev.currentParticipants)
  | none => false

/-- Embeds `EventService.update`, restricted to the fields the coordinator
invariants involve (date, capacity, regional, status); the remaining DTO
fields do not interact with the participant counter. -/
def updateEvent (s : EventState) (now : ℤ) (eventId : ℕ) (dto : UpdateEventDto) :
    Except EventError (EventState × Event) :=
  match lookupId s.events eventId with
  | none => .error .eventNotFound
  | some ev =>
    if dto.regionalId.isSome ∧ ¬ s.regionals.contains (dto.regionalId.getD 0) then
      .error .regionalNotFound
    else if dto.eventDate.isSome ∧ dto.eventDate.getD 0 ≤ now then
      .error .eventDateMustBeFuture
    else if maxBelowCurrent dto ev then .error .maxLessThanCurrent
    else
      let ev2 : Event :=
        { ev with
          eventDate := dto.eventDate.getD ev.eventDate,
          maxParticipants :=
            (match dto.maxParticipants with
             | some v => if v = 0 then ev.maxParticipants else some v
             | none => ev.maxParticipants),
          regionalId := dto.regionalId.getD ev.regionalId,
          status := dto.status.getD ev.status }
      .ok ({ s with events := mapAt s.events eventId fun _ => ev2 }, ev2)

/-- Embeds `EventParticipantRepository.findByEventAndUser`. -/
def findByEventAndUser (ps : List (ℕ × EventParticipant)) (eventId userId : ℕ) :
    Option (ℕ × EventParticipant) :=
  ps.find? fun kv => kv.2.eventId == eventId && kv.2.userId == userId

/-- The capacity check of `EventService.registerToEvent`:
`event.maxParticipants && event.currentParticipants >= event.maxParticipants`. -/
def isEventFull (ev : Event) : Bool :=
  match ev.maxParticipants with
  | some m => m != 0 && decide ((m : ℤ) ≤ ev.currentParticipants)
  | none => false

/-- Embeds `EventRepository.incrementParticipants` / `decrementParticipants`: a
bare `$inc` by `d` with no floor and no validators. -/
def incParticipants (evs : List (ℕ × Event)) (k : ℕ) (d : ℤ) : List (ℕ × Event) :=
  mapAt evs k fun ev =>
    { ev with currentParticipants := ev.currentParticipants + d }

/-- Embeds `EventService.registerToEvent`: the transaction body. -/
def registerToEvent (s : EventState) (now : ℤ) (userId : ℕ) (eventId : ℕ)
    (newParticipantId : ℕ) : Except EventError (EventState × EventParticipant) :=
  if ¬ s.users.contains userId then .error .userNotFound
  else
    match lookupId s.events eventId with
    | none => .error .eventNotFound
    | some ev =>
      if ev.eventDate ≤ now then .error .cannotRegisterToPastEvents
      else if isEventFull ev then .error .eventIsFull
      else if (findByEventAndUser s.participants eventId userId).isSome then
        .error .alreadyRegistered
      else
        let p : EventParticipant :=
          { eventId := eventId, userId := userId, registrationDate := now,
            attendanceStatus := .registered }
        .ok ({ s with
                participants := (newParticipantId, p) :: s.participants,
                events := incParticipants s.events eventId 1 }, p)

/-- Embeds `EventService.cancelRegistration`: the transaction body.  The counter
is decremented by a bare `$inc: -1` — there is no floor at 0. -/
def cancelRegistration (s : EventState) (now : ℤ) (userId : ℕ) (eventId : ℕ) :
    Except EventError (EventState × EventParticipant) :=
  match lookupId s.events eventId with
  | none => .error .eventNotFound
  | some ev =>
    match findByEventAndUser s.participants eventId userId with
    | none => .error .notRegistered
    | some (pid, p) =>
      if ev.eventDate ≤ now then .error .cannotCancelForPastEvents
      else
        .ok ({ s with
                participants := eraseId s.participants pid,
                events := incParticipants s.events eventId (-1) }, p)

/-- C3 (code bug): `cancelRegistration` deletes the participant record and
decrements `currentParticipants` by exactly 1, but the decrement is a bare
`$inc: -1` with no floor and with mongoose validators skipped, so on an
event whose stored counter is already 0 but which still has a registered
participant the counter is driven to −1 — contradicting both the spec and
the `min: 0` constraint declared on `currentParticipants` in the Event
schema. -/
theorem cancelRegistration_decrements_below_zero :
    cancelRegistration
        (EventState.mk [] [9] [(0, Event.mk 100 none 0 .published 0)]
          [(3, EventParticipant.mk 0 9 0 .registered)]) 0 9 0 =
      .ok (EventState.mk [] [9] [(0, Event.mk 100 none (-1) .published 0)] [],
           EventParticipant.mk 0 9 0 .registered) := by
  rfl

/-! ## The capacity invariant (C2) -/

/-- Number of participant records referencing an event
(`EventParticipantRepository.countByEvent`). -/
def countByEvent (ps : List (ℕ × EventParticipant)) (eventId : ℕ) : ℕ :=
  (ps.filter fun kv => kv.2.eventId == eventId).length

/-- An event's stored counter respects its capacity when one is set. -/
def capacityRespected (ev : Event) : Bool :=
  match ev.maxParticipants with
  | some m => decide (ev.currentParticipants ≤ (m : ℤ))
  | none => true

/-- The inductive invariant of the event coordinator: participant ids are
unique, every participant references an existing event, and each stored
counter equals the number of its participant records, is within capacity,
and capacity is never the (unstorable) value 0. -/
def EventWF (s : EventState) : Prop :=
  (s.participants.map Prod.fst).Nodup ∧
  (∀ kv ∈ s.participants, (lookupId s.events kv.2.eventId).isSome = true) ∧
  ∀ eventId ev, lookupId s.events eventId = some ev →
    ev.currentParticipants = (countByEvent s.participants eventId : ℤ) ∧
    ev.maxParticipants ≠ some 0 ∧
    ∀ m, ev.maxParticipants = some m → ev.currentParticipants ≤ (m : ℤ)

/-- States reachable by the coordinator operations of C2 (create event,
update event, register, unregister) from a store with no events and no
participants.  Fresh document ids generated by the store are assumed
unused, as MongoDB `_id`s are unique. -/
inductive Reachable : EventState → Prop
  | init (regionals users : List ℕ) :
      Reachable (EventState.mk regionals users [] [])
  | createEv {s s1 : EventState} {now : ℤ} {dto : CreateEventDto}
      {newEventId : ℕ} {ev : Event} :
      Reachable s → lookupId s.events newEventId = none →
      createEvent s now dto newEventId = .ok (s1, ev) → Reachable s1
  | updateEv {s s1 : EventState} {now : ℤ} {eventId : ℕ} {dto : UpdateEventDto}
      {ev : Event} :
      Reachable s → updateEvent s now eventId dto = .ok (s1, ev) → Reachable s1
  | register {s s1 : EventState} {now : ℤ} {userId eventId newParticipantId : ℕ}
      {p : EventParticipant} :
      Reachable s → lookupId s.participants newParticipantId = none →
      registerToEvent s now userId eventId newParticipantId = .ok (s1, p) →
      Reachable s1
  | unregister {s s1 : EventState} {now : ℤ} {userId eventId : ℕ}
      {p : EventParticipant} :
      Reachable s → cancelRegistration s now userId eventId = .ok (s1, p) →
      Reachable s1

theorem eraseId_cons {α : Type} (k1 : ℕ) (v : α) (rest : List (ℕ × α)) (k : ℕ) :
    eraseId ((k1, v) :: rest) k =
      if k1 = k then rest else (k1, v) :: eraseId rest k := rfl

theorem lookupId_cons_isSome {α : Type} (k : ℕ) (v : α) (m : List (ℕ × α)) (x : ℕ)
    (h : (lookupId m x).isSome = true) :
    (lookupId ((k, v) :: m) x).isSome = true := by
  rw [lookupId_cons]
  by_cases hk : k = x <;> simp [hk, h]

theorem countByEvent_cons (pid : ℕ) (p : EventParticipant)
    (ps : List (ℕ × EventParticipant)) (e : ℕ) :
    countByEvent ((pid, p) :: ps) e =
      countByEvent ps e + (if p.eventId = e then 1 else 0) := by
  simp only [countByEvent, List.filter_cons]
  by_cases h : p.eventId = e
  · simp [h, Nat.add_comm]
  · simp [h]

theorem countByEvent_eq_zero (ps : List (ℕ × EventParticipant)) (e : ℕ)
    (h : ∀ kv ∈ ps, kv.2.eventId ≠ e) : countByEvent ps e = 0 := by
  induction ps with
  | nil => rfl
  | cons kv rest ih =>
    obtain ⟨pid, p⟩ := kv
    rw [countByEvent_cons, ih fun kv2 hkv2 => h kv2 (List.mem_cons_of_mem _ hkv2),
      if_neg (h (pid, p) (List.mem_cons_self _ _))]

theorem countByEvent_eraseId (ps : List (ℕ × EventParticipant)) (pid : ℕ)
    (p : EventParticipant) (e : ℕ) (hfind : lookupId ps pid = some p) :
    countByEvent (eraseId ps pid) e + (if p.eventId = e then 1 else 0) =
      countByEvent ps e := by
  induction ps with
  | nil => cases hfind
  | cons kv rest ih =>
    obtain ⟨k, q⟩ := kv
    rw [lookupId_cons] at hfind
    by_cases h : k = pid
    · rw [if_pos h] at hfind
      obtain rfl : q = p := Option.some.inj hfind
      rw [eraseId_cons, if_pos h, countByEvent_cons]
    · rw [if_neg h] at hfind
      rw [eraseId_cons, if_neg h, countByEvent_cons, countByEvent_cons, ← ih hfind]
      omega

theorem lookupId_of_find? {α : Type} (pred : ℕ × α → Bool) (m : List (ℕ × α))
    (pid : ℕ) (v : α) (hnd : (m.map Prod.fst).Nodup)
    (h : m.find? pred = some (pid, v)) : lookupId m pid = some v := by
  induction m with
  | nil => cases h
  | cons kv rest ih =>
    rw [List.map_cons, List.nodup_cons] at hnd
    by_cases hp : pred kv = true
    · rw [List.find?_cons_of_pos _ hp] at h
      obtain rfl : kv = (pid, v) := Option.some.inj h
      rw [lookupId_cons, if_pos rfl]
    · rw [List.find?_cons_of_neg _ hp] at h
      have hmem : (pid, v) ∈ rest := List.mem_of_find?_eq_some h
      have hpid : pid ∈ rest.map Prod.fst := by
        exact List.mem_map_of_mem Prod.fst hmem
      obtain ⟨k1, q⟩ := kv
      have hk : k1 ≠ pid := fun hh => hnd.1 (hh ▸ hpid)
      rw [lookupId_cons, if_neg hk]
      exact ih hnd.2 h

theorem findByEventAndUser_eventId (ps : List (ℕ × EventParticipant))
    (e u pid : ℕ) (p : EventParticipant)
    (h : findByEventAndUser ps e u = some (pid, p)) : p.eventId = e := by
  have hp := List.find?_some h
  simp only [Bool.and_eq_true, beq_iff_eq] at hp
  exact hp.1

theorem eventWF_register {s s1 : EventState} {now : ℤ}
    {userId eventId newParticipantId : ℕ} {p : EventParticipant}
    (hwf : EventWF s) (hfresh : lookupId s.participants newParticipantId = none)
    (h : registerToEvent s now userId eventId newParticipantId = .ok (s1, p)) :
    EventWF s1 := by
  obtain ⟨hnd, hdang, hcnt⟩ := hwf
  simp only [registerToEvent] at h
  split at h
  · cases h
  split at h
  · cases h
  rename_i ev hev
  split at h
  · cases h
  split at h
  · cases h
  rename_i hdate hfull
  split at h
  · cases h
  obtain ⟨hs1, hp⟩ := Prod.mk.inj (Except.ok.inj h)
  subst hs1
  subst hp
  rw [Bool.not_eq_true] at hfull
  refine ⟨?_, ?_, ?_⟩
  · rw [List.map_cons, List.nodup_cons]
    exact ⟨(lookupId_eq_none_iff _ _).mp hfresh, hnd⟩
  · intro kv hkv
    rcases List.mem_cons.mp hkv with hkv | hkv
    · subst hkv
      unfold incParticipants
      rw [lookupId_mapAt_isSome, hev]
      rfl
    · unfold incParticipants
      rw [lookupId_mapAt_isSome]
      exact hdang kv hkv
  · intro eid ev1 hev1
    by_cases he : eid = eventId
    · subst he
      unfold incParticipants at hev1
      rw [lookupId_mapAt_self, hev] at hev1
      obtain rfl :
          { ev with currentParticipants := ev.currentParticipants + 1 } = ev1 :=
        Option.some.inj hev1
      obtain ⟨hc, hnz, hcap⟩ := hcnt eid ev hev
      refine ⟨?_, hnz, ?_⟩
      · rw [countByEvent_cons, if_pos rfl]
        dsimp only
        push_cast
        omega
      · intro m hm
        dsimp only at hm ⊢
        have hlt := hcap m hm
        have hm0 : m ≠ 0 := fun hz => hnz (hz ▸ hm)
        unfold isEventFull at hfull
        rw [hm] at hfull
        simp only [Bool.and_eq_true, bne_iff_ne, ne_eq, decide_eq_true_eq,
          Bool.and_eq_false_iff] at hfull
        rcases hfull with hfull | hfull
        · rw [bne_eq_false_iff_eq] at hfull
          exact absurd hfull hm0
        · rw [decide_eq_false_iff_not, not_le] at hfull
          omega
    · unfold incParticipants at hev1
      rw [lookupId_mapAt_ne _ _ _ _ he] at hev1
      obtain ⟨hc, hnz, hcap⟩ := hcnt eid ev1 hev1
      refine ⟨?_, hnz, hcap⟩
      rw [countByEvent_cons]
      dsimp only
      rw [if_neg (fun hh => he hh.symm), Nat.add_zero]
      exact hc

theorem eventWF_cancelRegistration {s s1 : EventState} {now : ℤ}
    {userId eventId : ℕ} {p : EventParticipant}
    (hwf : EventWF s) (h : cancelRegistration s now userId eventId = .ok (s1, p)) :
    EventWF s1 := by
  obtain ⟨hnd, hdang, hcnt⟩ := hwf
  simp only [cancelRegistration] at h
  split at h
  · cases h
  rename_i ev hev
  split at h
  · cases h
  rename_i pid p0 hfind
  split at h
  · cases h
  obtain ⟨hs1, hp⟩ := Prod.mk.inj (Except.ok.inj h)
  subst hs1
  subst hp
  have hpe : p0.eventId = eventId := findByEventAndUser_eventId _ _ _ _ _ hfind
  have hlk : lookupId s.participants pid = some p0 :=
    lookupId_of_find? _ _ _ _ hnd hfind
  refine ⟨?_, ?_, ?_⟩
  · exact List.Nodup.sublist ((eraseId_sublist _ _).map Prod.fst) hnd
  · intro kv hkv
    unfold incParticipants
    rw [lookupId_mapAt_isSome]
    exact hdang kv ((eraseId_sublist _ _).subset hkv)
  · intro eid ev1 hev1
    by_cases he : eid = eventId
    · subst he
      unfold incParticipants at hev1
      rw [lookupId_mapAt_self, hev] at hev1
      obtain rfl :
          { ev with currentParticipants := ev.currentParticipants + (-1) } = ev1 :=
        Option.some.inj hev1
      obtain ⟨hc, hnz, hcap⟩ := hcnt eid ev hev
      have herase := countByEvent_eraseId s.participants pid p0 eid hlk
      rw [if_pos hpe] at herase
      refine ⟨?_, hnz, ?_⟩
      · dsimp only
        omega
      · intro m hm
        dsimp only at hm ⊢
        have := hcap m hm
        omega
    · unfold incParticipants at hev1
      rw [lookupId_mapAt_ne _ _ _ _ he] at hev1
      obtain ⟨hc, hnz, hcap⟩ := hcnt eid ev1 hev1
      refine ⟨?_, hnz, hcap⟩
      have herase := countByEvent_eraseId s.participants pid p0 eid hlk
      rw [if_neg (fun hh => he (hh.symm.trans hpe))] at herase
      rw [Nat.add_zero] at herase
      rw [hc, herase]

theorem eventWF_createEvent {s s1 : EventState} {now : ℤ} {dto : CreateEventDto}
    {newEventId : ℕ} {ev : Event}
    (hwf : EventWF s) (hfresh : lookupId s.events newEventId = none)
    (h : createEvent s now dto newEventId = .ok (s1, ev)) : EventWF s1 := by
  obtain ⟨hnd, hdang, hcnt⟩ := hwf
  simp only [createEvent] at h
  split at h
  · cases h
  split at h
  · cases h
  obtain ⟨hs1, hev⟩ := Prod.mk.inj (Except.ok.inj h)
  subst hs1
  refine ⟨hnd, ?_, ?_⟩
  · intro kv hkv
    exact lookupId_cons_isSome _ _ _ _ (hdang kv hkv)
  · intro eid ev1 hev1
    rw [lookupId_cons] at hev1
    by_cases he : newEventId = eid
    · rw [if_pos he] at hev1
      obtain rfl := Option.some.inj hev1
      subst he
      have hzero : countByEvent s.participants newEventId = 0 := by
        apply countByEvent_eq_zero
        intro kv hkv hcontra
        have hs := hdang kv hkv
        rw [hcontra, hfresh] at hs
        cases hs
      refine ⟨?_, ?_, ?_⟩
      · dsimp only
        rw [hzero]
        rfl
      · dsimp only
        cases hd : dto.maxParticipants with
        | some v =>
          by_cases hv : v = 0 <;> simp [hv]
        | none => simp
      · intro m hm
        dsimp only at hm ⊢
        exact_mod_cast Int.ofNat_nonneg m
    · rw [if_neg he] at hev1
      exact hcnt eid ev1 hev1

theorem eventWF_updateEvent {s s1 : EventState} {now : ℤ} {eventId : ℕ}
    {dto : UpdateEventDto} {ev : Event}
    (hwf : EventWF s) (h : updateEvent s now eventId dto = .ok (s1, ev)) :
    EventWF s1 := by
  obtain ⟨hnd, hdang, hcnt⟩ := hwf
  simp only [updateEvent] at h
  split at h
  · cases h
  rename_i ev0 hev0
  split at h
  · cases h
  split at h
  · cases h
  split at h
  · cases h
  rename_i hmax
  obtain ⟨hs1, hev⟩ := Prod.mk.inj (Except.ok.inj h)
  subst hs1
  refine ⟨hnd, ?_, ?_⟩
  · intro kv hkv
    rw [lookupId_mapAt_isSome]
    exact hdang kv hkv
  · intro eid ev1 hev1
    by_cases he : eid = eventId
    · subst he
      rw [lookupId_mapAt_self, hev0] at hev1
      obtain rfl := Option.some.inj hev1
      obtain ⟨hc, hnz, hcap⟩ := hcnt eid ev0 hev0
      rw [Bool.not_eq_true] at hmax
      refine ⟨hc, ?_, ?_⟩
      · dsimp only
        cases hd : dto.maxParticipants with
        | some v =>
          by_cases hv : v = 0 <;> simp [hv, hnz]
        | none => simp [hnz]
      · intro m hm
        dsimp only at hm ⊢
        unfold maxBelowCurrent at hmax
        cases hd : dto.maxParticipants with
        | none =>
          simp only [hd] at hm
          exact hcap m hm
        | some v =>
          simp only [hd] at hm hmax
          by_cases hv : v = 0
          · rw [if_pos hv] at hm
            exact hcap m hm
          · rw [if_neg hv] at hm
            obtain rfl : v = m := Option.some.inj hm
            simp only [Bool.and_eq_false_iff, bne_eq_false_iff_eq,
              decide_eq_false_iff_not, not_lt] at hmax
            rcases hmax with hmax | hmax
            · exact absurd hmax hv
            · exact hmax
    · rw [lookupId_mapAt_ne _ _ _ _ he] at hev1
      exact hcnt eid ev1 hev1

theorem eventWF_init (regionals users : List ℕ) :
    EventWF (EventState.mk regionals users [] []) := by
  refine ⟨List.nodup_nil, ?_, ?_⟩
  · intro kv hkv
    cases hkv
  · intro eid ev hev
    cases hev

theorem reachable_eventWF {s : EventState} (h : Reachable s) : EventWF s := by
  induction h with
  | init regionals users => exact eventWF_init regionals users
  | createEv _ hfresh hop ih => exact eventWF_createEvent ih hfresh hop
  | updateEv _ hop ih => exact eventWF_updateEvent ih hop
  | register _ hfresh hop ih => exact eventWF_register ih hfresh hop
  | unregister _ hop ih => exact eventWF_cancelRegistration ih hop

/-- C2: in every state reachable by any sequence of coordinator operations
(create event, update event, register, unregister), every stored event's
participant counter is non-negative and never exceeds `maxParticipants`
when a capacity is set. -/
theorem event_counter_invariant (s : EventState) (h : Reachable s)
    (eventId : ℕ) (ev : Event) (hev : lookupId s.events eventId = some ev) :
    0 ≤ ev.currentParticipants ∧ capacityRespected ev = true := by
  obtain ⟨-, -, hcnt⟩ := reachable_eventWF h
  obtain ⟨hc, -, hcap⟩ := hcnt eventId ev hev
  constructor
  · rw [hc]
    exact_mod_cast Int.ofNat_nonneg _
  · unfold capacityRespected
    cases hm : ev.maxParticipants with
    | some m => simpa using hcap m hm
    | none => rfl

/-- Witness for C2: the state reached by creating event 5 (capacity 1) in
an empty store satisfies the invariant. -/
theorem event_counter_invariant_witness :
    0 ≤ (Event.mk 100 (some 1) 0 .published 0).currentParticipants ∧
    capacityRespected (Event.mk 100 (some 1) 0 .published 0) = true :=
  event_counter_invariant
    (EventState.mk [0] [1] [(5, Event.mk 100 (some 1) 0 .published 0)] [])
    (@Reachable.createEv (EventState.mk [0] [1] [] [])
      (EventState.mk [0] [1] [(5, Event.mk 100 (some 1) 0 .published 0)] [])
      0 (CreateEventDto.mk 100 (some 1) 0 none) 5
      (Event.mk 100 (some 1) 0 .published 0)
      (Reachable.init [0] [1]) rfl rfl) 5
    (Event.mk 100 (some 1) 0 .published 0) rfl

end BicycleRental
